import Mathlib

/-
Verification of the descriptor-construction engine of the liana GUI installer
(gui/src/installer/step/descriptor.rs), as a shallow embedding in Lean 4.

Machine integers are modelled as Nat (BIP32 child indices carry an explicit
upper bound of 2^31 where the source enforces one).  Hash maps and hash sets
are modelled as association lists and lists with membership semantics.
Asynchronous commands are modelled as explicit request values returned next
to the updated state.  Filesystem access (the datadir existence check inside
set_network) and the shared software signer are outside the model; the
network_valid flag is carried as plain state.
-/

/-- Bitcoin network tag (miniscript::bitcoin::Network). -/
inductive Network
  | bitcoin
  | testnet
  | signet
  | regtest
deriving DecidableEq

/-- BIP32 child number (util::bip32::ChildNumber): a normal or hardened
index.  The source type bounds indices to 2^31; the bound is enforced where
the source enforces it (ChildNumber::increment). -/
inductive ChildNumber
  | normal (index : Nat)
  | hardened (index : Nat)
deriving DecidableEq

/-- Strict comparison mirroring the derived Ord of the source enum, which
orders by variant first (Normal before Hardened) and by index within a
variant.  cnGt a b holds when a is greater than b in that order. -/
def ChildNumber.cnGt : ChildNumber → ChildNumber → Bool
  | .normal i, .normal j => decide (j < i)
  | .hardened _, .normal _ => true
  | .normal _, .hardened _ => false
  | .hardened i, .hardened j => decide (j < i)

/-- ChildNumber::increment: adds one to the index, keeping the variant, and
fails (the source returns Err, unwrapped to a panic at the call sites) when
the incremented index leaves the valid range below 2^31. -/
def ChildNumber.increment : ChildNumber → Option ChildNumber
  | .normal i => if i + 1 < 2 ^ 31 then some (.normal (i + 1)) else none
  | .hardened i => if i + 1 < 2 ^ 31 then some (.hardened (i + 1)) else none

/-- Whether a child number is hardened. -/
def ChildNumber.isHardened : ChildNumber → Bool
  | .normal _ => false
  | .hardened _ => true

/-- A derivation path is a sequence of child numbers. -/
abbrev DerivationPath := List ChildNumber

/-- Master key fingerprints, abstracted to Nat. -/
abbrev Fingerprint := Nat

/-- Wildcard marker of a descriptor key (miniscript::descriptor::Wildcard). -/
inductive Wildcard
  | none
  | unhardened
  | hardened
deriving DecidableEq

/-- Raw extended public key: its embedded network tag, its own fingerprint
and its key material (abstracted to a Nat so equality is meaningful). -/
structure Xpub where
  network : Network
  fingerprint : Fingerprint
  raw : Nat
deriving DecidableEq

/-- miniscript::descriptor::DescriptorXKey for public keys. -/
structure DescriptorXKey where
  origin : Option (Fingerprint × DerivationPath)
  xkey : Xpub
  derivation_path : DerivationPath
  wildcard : Wildcard
deriving DecidableEq

/-- miniscript::descriptor::DescriptorMultiXKey for public keys. -/
structure DescriptorMultiXKey where
  origin : Option (Fingerprint × DerivationPath)
  xkey : Xpub
  derivation_paths : List DerivationPath
  wildcard : Wildcard
deriving DecidableEq

/-- miniscript::descriptor::DescriptorPublicKey.  The Single variant
(a bare public key) is abstracted to its fingerprint and key material; no
claim depends on its internal structure. -/
inductive DescriptorPublicKey
  | xpub (k : DescriptorXKey)
  | multiXpub (k : DescriptorMultiXKey)
  | single (fingerprint : Fingerprint) (raw : Nat)
deriving DecidableEq

/-- DescriptorPublicKey::master_fingerprint: the origin fingerprint when an
origin is present, the key fingerprint otherwise. -/
def DescriptorPublicKey.master_fingerprint : DescriptorPublicKey → Fingerprint
  | .xpub k =>
    match k.origin with
    | some (fp, _) => fp
    | none => k.xkey.fingerprint
  | .multiXpub k =>
    match k.origin with
    | some (fp, _) => fp
    | none => k.xkey.fingerprint
  | .single fp _ => fp

/-- check_key_network (descriptor.rs lines 533-551): an xpub-based key is
valid on the Bitcoin network iff its tag is Bitcoin, and on every other
network iff its tag is Testnet (the testnet key encoding is shared by all
test networks); keys without a network tag are always valid. -/
def check_key_network (key : DescriptorPublicKey) (network : Network) : Bool :=
  match key with
  | .xpub k =>
    if network = Network.bitcoin then decide (k.xkey.network = Network.bitcoin)
    else decide (k.xkey.network = Network.testnet)
  | .multiXpub k =>
    if network = Network.bitcoin then decide (k.xkey.network = Network.bitcoin)
    else decide (k.xkey.network = Network.testnet)
  | .single _ _ => true

/-- A key slot (struct DescriptorKey in descriptor.rs). -/
structure DescriptorKey where
  name : String
  valid : Bool
  key : Option DescriptorPublicKey
  duplicate_key : Bool
  duplicate_name : Bool
deriving DecidableEq

/-- Default::default() for DescriptorKey. -/
def DescriptorKey.default : DescriptorKey :=
  { name := "", valid := true, key := none,
    duplicate_key := false, duplicate_name := false }

/-- DescriptorKey::check_network: recompute the validity flag of a populated
slot against a network; empty slots are untouched. -/
def DescriptorKey.check_network (slot : DescriptorKey) (network : Network) :
    DescriptorKey :=
  match slot.key with
  | some k => { slot with valid := check_key_network k network }
  | none => slot

/-- form::Value<String>: a text field with a validity flag. -/
structure FormValue where
  value : String
  valid : Bool
deriving DecidableEq

/-- State of the DefineDescriptor step.  The data_dir, modal and signer
fields of the source struct are not modelled (filesystem, UI and the shared
software signer are outside the embedding). -/
structure DefineDescriptor where
  network : Network
  network_valid : Bool
  spending_keys : List DescriptorKey
  spending_threshold : Nat
  recovery_keys : List DescriptorKey
  recovery_threshold : Nat
  sequence : FormValue
  error : Option String
deriving DecidableEq

/-- The combined primary+recovery slot pool, in scan order. -/
def pool (s : DefineDescriptor) : List DescriptorKey :=
  s.spending_keys ++ s.recovery_keys

/-- DefineDescriptor::new(): one empty slot and threshold 1 per branch.
The sequence form value starts empty (form::Value::default()). -/
def initialState : DefineDescriptor :=
  { network := .bitcoin, network_valid := true,
    spending_keys := [DescriptorKey.default], spending_threshold := 1,
    recovery_keys := [DescriptorKey.default], recovery_threshold := 1,
    sequence := { value := "", valid := false }, error := none }

/-- Decimal digit value of a character, if it is an ASCII digit. -/
def digitVal (c : Char) : Option Nat :=
  if c.isDigit then some (c.toNat - 48) else none

/-- Accumulate decimal digits; fails on any non-digit. -/
def parseNatCore : List Char → Nat → Option Nat
  | [], acc => some acc
  | c :: cs, acc =>
    match digitVal c with
    | some d => parseNatCore cs (acc * 10 + d)
    | none => none

/-- str::parse::<u16>: an optional leading plus sign, at least one decimal
digit, and a value of at most 65535. -/
def parseU16 (s : String) : Option Nat :=
  let core := fun (cs : List Char) =>
    match cs with
    | [] => none
    | _ => (parseNatCore cs 0).bind fun n =>
        if n ≤ 65535 then some n else none
  match s.toList with
  | [] => none
  | '+' :: cs => core cs
  | cs => core cs

/-- Accumulator of the duplicate scan: the seen-keys set, duplicate-keys
set, alias-to-fingerprint map and duplicate-aliases set (HashSet/HashMap in
the source, association lists here). -/
structure ScanAcc where
  all_keys : List DescriptorPublicKey
  duplicate_keys : List DescriptorPublicKey
  all_names : List (String × Fingerprint)
  duplicate_names : List String
deriving DecidableEq

/-- The empty scan accumulator. -/
def emptyAcc : ScanAcc := { all_keys := [], duplicate_keys := [],
                            all_names := [], duplicate_names := [] }

/-- First-match lookup in the alias-to-fingerprint association list. -/
def lookupName : List (String × Fingerprint) → String → Option Fingerprint
  | [], _ => none
  | (n, f) :: rest, name => if n = name then some f else lookupName rest name

/-- Alias handling for one populated slot during the scan: an alias already
recorded with a different fingerprint is marked duplicate; an unseen alias
is recorded with the key fingerprint. -/
def nameStep (acc : ScanAcc) (name : String) (fg : Fingerprint) : ScanAcc :=
  match lookupName acc.all_names name with
  | some f =>
    if f ≠ fg then { acc with duplicate_names := name :: acc.duplicate_names }
    else acc
  | none => { acc with all_names := (name, fg) :: acc.all_names }

/-- Key handling for one populated slot during the scan: a key seen before
is marked duplicate, otherwise it is recorded as seen. -/
def keyStep (acc : ScanAcc) (k : DescriptorPublicKey) : ScanAcc :=
  if k ∈ acc.all_keys then
    { acc with duplicate_keys := k :: acc.duplicate_keys }
  else
    { acc with all_keys := k :: acc.all_keys }

/-- One slot of the scan loop: empty slots are skipped; for a populated slot
the alias is processed first, then the key, as in the source loop body. -/
def scanStep (acc : ScanAcc) (slot : DescriptorKey) : ScanAcc :=
  match slot.key with
  | none => acc
  | some k => keyStep (nameStep acc slot.name k.master_fingerprint) k

/-- Flag rewrite applied to every primary slot after the scan: the
duplicate_name flag is recomputed for every slot, the duplicate_key flag
only for populated slots. -/
def applyPrimaryFlags (acc : ScanAcc) (slot : DescriptorKey) : DescriptorKey :=
  let slot := { slot with
    duplicate_name := decide (slot.name ∈ acc.duplicate_names) }
  match slot.key with
  | some k => { slot with duplicate_key := decide (k ∈ acc.duplicate_keys) }
  | none => slot

/-- Flag rewrite applied to every recovery slot after the scan: only the
duplicate_key flag of populated slots is recomputed; duplicate_name is left
unchanged (the source loop over recovery slots never writes it). -/
def applyRecoveryFlags (acc : ScanAcc) (slot : DescriptorKey) : DescriptorKey :=
  match slot.key with
  | some k => { slot with duplicate_key := decide (k ∈ acc.duplicate_keys) }
  | none => slot

/-- DefineDescriptor::check_for_duplicate (descriptor.rs lines 104-152):
scan the primary then the recovery slots into one shared accumulator, then
rewrite the flags of both branches. -/
def check_for_duplicate (s : DefineDescriptor) : DefineDescriptor :=
  let acc := s.spending_keys.foldl scanStep emptyAcc
  let acc := s.recovery_keys.foldl scanStep acc
  { s with
    spending_keys := s.spending_keys.map (applyPrimaryFlags acc),
    recovery_keys := s.recovery_keys.map (applyRecoveryFlags acc) }

/-- Number of slots in a list holding exactly the key k. -/
def keyCount (l : List DescriptorKey) (k : DescriptorPublicKey) : Nat :=
  l.countP fun slot => decide (slot.key = some k)

/-- DefineDescriptor::edit_alias_for_key_with_same_fingerprint: rename every
slot of either branch whose key has the given master fingerprint. -/
def edit_alias_for_key_with_same_fingerprint (s : DefineDescriptor)
    (name : String) (fingerprint : Fingerprint) : DefineDescriptor :=
  let upd := fun (slot : DescriptorKey) =>
    if slot.key.map DescriptorPublicKey.master_fingerprint = some fingerprint
    then { slot with name := name } else slot
  { s with
    spending_keys := s.spending_keys.map upd,
    recovery_keys := s.recovery_keys.map upd }

/-- DefineDescriptor::set_network: store the network and recompute every
slot validity flag.  The signer network switch and the datadir existence
check (which drives network_valid) act on resources outside the model and
are omitted. -/
def set_network (s : DefineDescriptor) (network : Network) : DefineDescriptor :=
  { s with
    network := network,
    spending_keys := s.spending_keys.map (fun k => k.check_network network),
    recovery_keys := s.recovery_keys.map (fun k => k.check_network network) }

/-- The registry-mutating messages handled by DefineDescriptor::update.
Modal-only messages (Edit, Close, Clipboard) and messages forwarded to an
open modal do not touch the registry and are outside the model. -/
inductive Msg
  | network (n : Network)
  | thresholdEdited (is_recovery : Bool) (value : Nat)
  | sequenceEdited (seq : String)
  | addKey (is_recovery : Bool)
  | keyEdited (is_recovery : Bool) (i : Nat) (name : String)
      (key : DescriptorPublicKey)
  | keyDelete (is_recovery : Bool) (i : Nat)
deriving DecidableEq

/-- Replace the element at an index, leaving the list unchanged when the
index is out of range (Vec get_mut returning None). -/
def modifyAt : List α → Nat → (α → α) → List α
  | [], _, _ => []
  | x :: xs, 0, f => f x :: xs
  | x :: xs, n + 1, f => x :: modifyAt xs n f

/-- DefineDescriptor::update (descriptor.rs lines 221-337) restricted to the
registry mutations.  The result is none exactly where the source panics:
Vec::remove with an out-of-range index in the Delete arm.  The source first
clears the error field, then dispatches on the message. -/
def DefineDescriptor.update (s : DefineDescriptor) (msg : Msg) :
    Option DefineDescriptor :=
  let s := { s with error := none }
  match msg with
  | .network n => some (set_network s n)
  | .thresholdEdited is_recovery value =>
    if is_recovery then some { s with recovery_threshold := value }
    else some { s with spending_threshold := value }
  | .sequenceEdited seq =>
    let s := { s with sequence := { s.sequence with valid := true } }
    if seq.isEmpty || (parseU16 seq).isSome then
      some { s with sequence := { s.sequence with value := seq } }
    else some s
  | .addKey is_recovery =>
    if is_recovery then
      some { s with
             recovery_keys := s.recovery_keys ++ [DescriptorKey.default],
             recovery_threshold := s.recovery_threshold + 1 }
    else
      some { s with
             spending_keys := s.spending_keys ++ [DescriptorKey.default],
             spending_threshold := s.spending_threshold + 1 }
  | .keyEdited is_recovery i name key =>
    let s := edit_alias_for_key_with_same_fingerprint s name
      key.master_fingerprint
    let setSlot := fun (slot : DescriptorKey) =>
      DescriptorKey.check_network { slot with name := name, key := some key }
        s.network
    let s :=
      if is_recovery then
        { s with recovery_keys := modifyAt s.recovery_keys i setSlot }
      else
        { s with spending_keys := modifyAt s.spending_keys i setSlot }
    some (check_for_duplicate s)
  | .keyDelete is_recovery i =>
    if is_recovery then
      if i < s.recovery_keys.length then
        let ks := s.recovery_keys.eraseIdx i
        let th := if ks.length < s.recovery_threshold
                  then s.recovery_threshold - 1 else s.recovery_threshold
        some (check_for_duplicate
          { s with recovery_keys := ks, recovery_threshold := th })
      else none
    else
      if i < s.spending_keys.length then
        let ks := s.spending_keys.eraseIdx i
        let th := if ks.length < s.spending_threshold
                  then s.spending_threshold - 1 else s.spending_threshold
        some (check_for_duplicate
          { s with spending_keys := ks, spending_threshold := th })
      else none

/-- Run a sequence of messages, stopping at a panic. -/
def updateSeq (s : DefineDescriptor) : List Msg → Option DefineDescriptor
  | [] => some s
  | m :: ms =>
    match s.update m with
    | some t => updateSeq t ms
    | none => none

/-- Observed account index of a slot, per the mapping loop: a populated xpub
slot with an origin whose path has at least 4 elements and starts with
hardened 48 (the source compares the Display string to the text for the
hardened constant 48) contributes the path element at position 2 for its
origin fingerprint. -/
def slotObserved (slot : DescriptorKey) : Option (Fingerprint × ChildNumber) :=
  match slot.key with
  | some (.xpub k) =>
    match k.origin with
    | some (fp, path) =>
      if 4 ≤ path.length then
        if path.get? 0 = some (.hardened 48) then
          (path.get? 2).map fun c => (fp, c)
        else none
      else none
    | none => none
  | _ => none

/-- First-match lookup in the fingerprint-to-index association list. -/
def lookupFp : List (Fingerprint × ChildNumber) → Fingerprint →
    Option ChildNumber
  | [], _ => none
  | (f, c) :: rest, fp => if f = fp then some c else lookupFp rest fp

/-- HashMap::insert: replace the entry for a fingerprint, or add one. -/
def setFp : List (Fingerprint × ChildNumber) → Fingerprint → ChildNumber →
    List (Fingerprint × ChildNumber)
  | [], fp, c => [(fp, c)]
  | (f, c0) :: rest, fp, c =>
    if f = fp then (fp, c) :: rest else (f, c0) :: setFp rest fp c

/-- One slot of the mapping loop: keep the per-fingerprint maximum observed
index, where an observed index replaces the stored one only when strictly
greater in the derived ChildNumber order. -/
def mappingStep (m : List (Fingerprint × ChildNumber)) (slot : DescriptorKey) :
    List (Fingerprint × ChildNumber) :=
  match slotObserved slot with
  | none => m
  | some (fp, idx) =>
    match lookupFp m fp with
    | some prev => if idx.cnGt prev then setFp m fp idx else m
    | none => setFp m fp idx

/-- DefineDescriptor::fingerprint_account_index_mappping (descriptor.rs
lines 167-200): fold the primary slots, then the recovery slots, into one
fingerprint-to-maximum-index map. -/
def fingerprint_account_index_mappping (s : DefineDescriptor) :
    List (Fingerprint × ChildNumber) :=
  let m := s.spending_keys.foldl mappingStep []
  s.recovery_keys.foldl mappingStep m

/-- The account-index allocation performed by the device-selection handler
(EditXpubModal::update, Message::Select, descriptor.rs lines 636-663): the
increment of the mapped index when the fingerprint has an entry — the source
unwraps the increment, so overflow is a panic, modelled as none — and
hardened index 0 otherwise. -/
def next_account_index (s : DefineDescriptor) (fp : Fingerprint) :
    Option ChildNumber :=
  match lookupFp (fingerprint_account_index_mappping s) fp with
  | some idx => idx.increment
  | none => some (.hardened 0)

/-- The index a slot contributes for one given fingerprint, if any. -/
def obsOf (fp : Fingerprint) (slot : DescriptorKey) : Option ChildNumber :=
  match slotObserved slot with
  | some (f, c) => if f = fp then some c else none
  | none => none

/-- All indices observed for one fingerprint by a slot list, in scan order. -/
def observedFor (l : List DescriptorKey) (fp : Fingerprint) :
    List ChildNumber :=
  l.filterMap (obsOf fp)

/-- Running maximum in the derived ChildNumber order. -/
def accStep (acc : Option ChildNumber) (c : ChildNumber) : Option ChildNumber :=
  match acc with
  | none => some c
  | some p => if c.cnGt p then some c else some p

/-- generate_derivation_path (descriptor.rs lines 788-797).  The source
formats the text m/48h/coin/account/2h — coin is hardened 0 on Bitcoin and
hardened 1 otherwise, account is the Display of the argument — and reparses
it; Display and FromStr round-trip child numbers verbatim, so the path is
built directly. -/
def generate_derivation_path (network : Network) (account_index : ChildNumber) :
    DerivationPath :=
  if network = Network.bitcoin then
    [.hardened 48, .hardened 0, account_index, .hardened 2]
  else
    [.hardened 48, .hardened 1, account_index, .hardened 2]

/-- A slot as produced by a completed device import (get_extended_pubkey,
descriptor.rs lines 801-816): origin is the device fingerprint plus the
path allocated for it, the inner derivation path is the master (empty) path
and there is no wildcard. -/
def mkImportedSlot (name : String) (fp : Fingerprint) (network : Network)
    (idx : ChildNumber) (xk : Xpub) : DescriptorKey :=
  { name := name, valid := true,
    key := some (.xpub { origin := some (fp, generate_derivation_path network idx),
                         xkey := xk, derivation_path := [], wildcard := .none }),
    duplicate_key := false, duplicate_name := false }

/-- A wallet key entry of the installer context (app::settings::KeySetting,
carried by Context::keys). -/
structure KeySetting where
  master_fingerprint : Fingerprint
  name : String
deriving DecidableEq

/-- Threshold key sets of a liana descriptor branch
(liana::descriptors::LianaDescKeys). -/
inductive LianaDescKeys
  | single (k : DescriptorPublicKey)
  | multi (thresh : Nat) (keys : List DescriptorPublicKey)
deriving DecidableEq

/-- Modelled from the spec: LianaDescKeys::from_multi lives in the liana
crate, which is not under src/.  Per the spec, building a k-of-n threshold
over the multipath keys fails with a policy error when the threshold is
inconsistent: greater than the key count, zero, or with duplicate keys
inside the one threshold. -/
def LianaDescKeys.from_multi (thresh : Nat)
    (keys : List DescriptorPublicKey) : Except String LianaDescKeys :=
  if thresh = 0 ∨ keys.length < thresh ∨ ¬ keys.Nodup then
    .error "invalid threshold"
  else
    .ok (.multi thresh keys)

/-- The compiled multipath descriptor, abstracted to its inputs: the two
branch key sets and the relative timelock. -/
structure Descriptor where
  spending : LianaDescKeys
  recovery : LianaDescKeys
  sequence : Nat
deriving DecidableEq

/-- Modelled from the spec: MultipathDescriptor::new lives in the liana
crate, which is not under src/.  The spec reserves its failure for compile
errors about miniscript size limits and malformed threshold nesting, which
have no counterpart in this abstract descriptor model; on the
threshold-validated inputs produced by the assembler it is modelled as
always compiling. -/
def multipathDescriptorNew (spending recovery : LianaDescKeys)
    (sequence : Nat) : Except String Descriptor :=
  .ok { spending := spending, recovery := recovery, sequence := sequence }

/-- The installer wizard context fields touched by DefineDescriptor::apply.
The hardware-wallet token list and the signer handle are not modelled. -/
structure Context where
  network : Network
  keys : List KeySetting
  descriptor : Option Descriptor
deriving DecidableEq

/-- Rewrite of one single-path xpub into the two-branch multipath key built
by apply: receive sub-path 0 and change sub-path 1, unhardened wildcard,
preserving origin and key material. -/
def toMultiXpub (xpub : DescriptorXKey) : DescriptorPublicKey :=
  .multiXpub { origin := xpub.origin, xkey := xpub.xkey,
               derivation_paths := [[.normal 0], [.normal 1]],
               wildcard := .unhardened }

/-- One branch loop of apply: for every populated xpub slot, record a
KeySetting when the key has an origin, and collect the multipath rewrite of
the key.  (The signer-participation flag read in the same loop concerns the
unmodelled signer handle.) -/
def collectBranch (slots : List DescriptorKey) :
    List KeySetting × List DescriptorPublicKey :=
  slots.foldl
    (fun acc slot =>
      match slot.key with
      | some (.xpub xpub) =>
        let ks := match xpub.origin with
          | some (mfp, _) =>
            acc.1 ++ [{ master_fingerprint := mfp, name := slot.name }]
          | none => acc.1
        (ks, acc.2 ++ [toMultiXpub xpub])
      | _ => acc)
    ([], [])

/-- Key-set construction of apply: a branch with exactly one collected key
becomes the policy directly (from_single); otherwise the branch threshold is
used to build a multi. -/
def mkLianaKeys (thresh : Nat) (keys : List DescriptorPublicKey) :
    Except String LianaDescKeys :=
  match keys with
  | [k] => .ok (.single k)
  | ks => LianaDescKeys.from_multi thresh ks

/-- Result of DefineDescriptor::apply: the returned Bool, the mutated step
state and the mutated wizard context. -/
structure ApplyResult where
  ok : Bool
  step : DefineDescriptor
  ctx : Context
deriving DecidableEq

/-- DefineDescriptor::apply (descriptor.rs lines 344-448).  The context
network and key list are overwritten up front; the sequence text is then
parsed and the validation guard runs; the three descriptor-construction
steps each turn an error into a false return with the error recorded; only
the success path writes the context descriptor. -/
def DefineDescriptor.apply (s : DefineDescriptor) (ctx : Context) :
    ApplyResult :=
  let col1 := collectBranch s.spending_keys
  let col2 := collectBranch s.recovery_keys
  let ctx1 : Context := { ctx with network := s.network, keys := col1.1 ++ col2.1 }
  let seqParsed := parseU16 s.sequence.value
  let s1 := { s with sequence := { s.sequence with valid := seqParsed.isSome } }
  if !s1.network_valid || seqParsed.isNone || col2.2.isEmpty || col1.2.isEmpty
  then
    { ok := false, step := s1, ctx := ctx1 }
  else
    match mkLianaKeys s1.spending_threshold col1.2 with
    | .error e => { ok := false, step := { s1 with error := some e }, ctx := ctx1 }
    | .ok sk =>
      match mkLianaKeys s1.recovery_threshold col2.2 with
      | .error e => { ok := false, step := { s1 with error := some e }, ctx := ctx1 }
      | .ok rk =>
        match multipathDescriptorNew sk rk (seqParsed.getD 0) with
        | .error e => { ok := false, step := { s1 with error := some e }, ctx := ctx1 }
        | .ok d => { ok := true, step := s1, ctx := { ctx1 with descriptor := some d } }

/-- The key-alias list apply writes into the context: the primary branch
entries followed by the recovery branch entries. -/
def appliedKeySettings (s : DefineDescriptor) : List KeySetting :=
  (collectBranch s.spending_keys).1 ++ (collectBranch s.recovery_keys).1

/-- A connected hardware device as the registration step sees it.  Modelled
from the spec: the HardwareWallet type lives in the hw module, which is not
under src/; per the spec a device exposes a kind tag, a fingerprint and a
supported/unsupported status, and only supported devices expose the
fingerprint to the step. -/
inductive HardwareWallet
  | supported (fingerprint : Fingerprint) (kind : Nat)
  | unsupported (kind : Nat)
deriving DecidableEq

/-- HardwareWallet::fingerprint(). -/
def HardwareWallet.fingerprintOf : HardwareWallet → Option Fingerprint
  | .supported fp _ => some fp
  | .unsupported _ => none

/-- HardwareWallet::kind(). -/
def HardwareWallet.kindOf : HardwareWallet → Nat
  | .supported _ k => k
  | .unsupported k => k

/-- State of the RegisterDescriptor step (descriptor.rs lines 1148-1158).
The acknowledgment token is abstracted to an optional Nat. -/
structure RegisterState where
  descriptor : Option Descriptor
  processing : Bool
  chosen_hw : Option Nat
  hws : List HardwareWallet
  hmacs : List (Fingerprint × Nat × Option Nat)
  registered : List Fingerprint
  error : Option String
  done : Bool
deriving DecidableEq

/-- A registration request dispatched to a device: its fingerprint and the
descriptor pushed to it. -/
structure RegRequest where
  fingerprint : Fingerprint
  descriptor : Descriptor
deriving DecidableEq

/-- Messages handled by RegisterDescriptor::update.  The Reload message
only re-issues device enumeration and is outside the model. -/
inductive RegMsg
  | select (i : Nat)
  | walletRegistered (res : Except String (Fingerprint × Option Nat))
  | connected (hws : List HardwareWallet)
  | userActionDone (done : Bool)

/-- RegisterDescriptor::update (descriptor.rs lines 1164-1215).  The result
pairs the new state with the registration request dispatched, if any; none
models the panic of unwrapping a missing descriptor when an unregistered
device is selected. -/
def RegisterState.update (s : RegisterState) (msg : RegMsg) :
    Option (RegisterState × Option RegRequest) :=
  match msg with
  | .select i =>
    match s.hws.get? i with
    | some (.supported fp _) =>
      if fp ∈ s.registered then some (s, none)
      else
        match s.descriptor with
        | none => none
        | some d =>
          some ({ s with chosen_hw := some i, processing := true,
                         error := none },
                some { fingerprint := fp, descriptor := d })
    | _ => some (s, none)
  | .walletRegistered res =>
    let s := { s with processing := false, chosen_hw := none }
    match res with
    | .ok (fp, hmac) =>
      match s.hws.find? (fun hw => hw.fingerprintOf = some fp) with
      | some hw =>
        some ({ s with registered := fp :: s.registered,
                       hmacs := s.hmacs ++ [(fp, hw.kindOf, hmac)] }, none)
      | none => some (s, none)
    | .error e => some ({ s with error := some e }, none)
  | .connected hws => some ({ s with hws := hws }, none)
  | .userActionDone d => some ({ s with done := d }, none)

/-- Replacing an element preserves the list length. -/
theorem length_modifyAt (l : List α) (i : Nat) (f : α → α) :
    (modifyAt l i f).length = l.length := by
  induction l generalizing i with
  | nil => rfl
  | cons x xs ih =>
    cases i with
    | zero => rfl
    | succ n =>
      show (modifyAt xs n f).length + 1 = xs.length + 1
      rw [ih n]

/-- Concrete xpub used by the concrete instances below. -/
def xkA : Xpub := { network := .bitcoin, fingerprint := 10, raw := 100 }

/-- A second concrete xpub with different key material. -/
def xkB : Xpub := { network := .bitcoin, fingerprint := 11, raw := 101 }

/-- A concrete imported key with origin fingerprint 1 at the standard path. -/
def keyA : DescriptorPublicKey :=
  .xpub { origin := some (1, [.hardened 48, .hardened 0, .hardened 0,
                              .hardened 2]),
          xkey := xkA, derivation_path := [], wildcard := .none }

/-- A concrete imported key with origin fingerprint 2 at the standard path. -/
def keyB : DescriptorPublicKey :=
  .xpub { origin := some (2, [.hardened 48, .hardened 0, .hardened 0,
                              .hardened 2]),
          xkey := xkB, derivation_path := [], wildcard := .none }

/-- A populated slot holding keyA. -/
def slotA : DescriptorKey :=
  { name := "alice", valid := true, key := some keyA,
    duplicate_key := false, duplicate_name := false }

/-- A populated slot holding keyB. -/
def slotB : DescriptorKey :=
  { name := "bob", valid := true, key := some keyB,
    duplicate_key := false, duplicate_name := false }

/-- The slot list of a branch, selected the way the update arms select it. -/
def branchSlots (s : DefineDescriptor) (is_recovery : Bool) :
    List DescriptorKey :=
  if is_recovery then s.recovery_keys else s.spending_keys

/-- The one message class on which DefineDescriptor::update panics: a
delete whose index is not below the owning branch slot count. -/
def panicsOn (s : DefineDescriptor) : Msg → Bool
  | .keyDelete is_recovery i =>
    decide ((branchSlots s is_recovery).length ≤ i)
  | _ => false

/-- C4: for every network and every account index, generate_derivation_path
yields the four-element path hardened 48, hardened coin, hardened index,
hardened 2, with coin 0 exactly on the production network (Bitcoin) and 1
on every other network. -/
theorem c4_derivation_path_convention :
    ∀ (network : Network) (idx : Nat),
      generate_derivation_path network (ChildNumber.hardened idx) =
        [ChildNumber.hardened 48,
         ChildNumber.hardened (if network = Network.bitcoin then 0 else 1),
         ChildNumber.hardened idx, ChildNumber.hardened 2] := by
  intro network idx
  cases network <;> simp [generate_derivation_path]

/-- An if-then-else over some and none is defined exactly on the true
branch. -/
theorem isSome_ite {α : Type} (c : Prop) [Decidable c] (a : α) :
    (if c then some a else none).isSome = decide c := by
  split <;> simp [*]

/-- C9 (amended): DefineDescriptor::update returns normally on every
modelled message except a delete carrying an out-of-range slot index, on
which it panics (Vec::remove); in particular edits with out-of-range
indices return normally. -/
theorem c9_update_totality :
    ∀ (s : DefineDescriptor) (m : Msg),
      (s.update m).isSome = !(panicsOn s m) := by
  intro s m
  cases m with
  | network n => rfl
  | thresholdEdited r v => cases r <;> rfl
  | sequenceEdited seq =>
    simp only [DefineDescriptor.update, panicsOn]
    split <;> rfl
  | addKey r => cases r <;> rfl
  | keyEdited r i name key =>
    simp only [DefineDescriptor.update, panicsOn]
    split <;> rfl
  | keyDelete r i =>
    cases r <;> simp only [DefineDescriptor.update, panicsOn, branchSlots,
      Bool.false_eq_true, Bool.true_eq_false, if_true, if_false, ite_true,
      ite_false, reduceIte] <;>
    rw [isSome_ite, ← decide_not] <;>
    exact decide_eq_decide.mpr Nat.not_le.symm

/-- C9 counterexample to the claim as stated: from the initial state (one
slot per branch), a delete of primary slot index 1 is out of range, and
update panics instead of returning normally. -/
theorem c9_counterexample :
    initialState.update (Msg.keyDelete false 1) = none := by decide

/-- An empty wizard context on the production network. -/
def emptyCtx : Context :=
  { network := .bitcoin, keys := [], descriptor := none }

/-- Context for the C10 concrete instance: a test network, a pre-existing
key list and no descriptor. -/
def c10ctx : Context :=
  { network := .testnet,
    keys := [{ master_fingerprint := 9, name := "old" }], descriptor := none }

/-- State for the C10 concrete instance: a populated primary slot, an empty
recovery slot (so assembly fails) and a parseable timelock. -/
def c10s : DefineDescriptor :=
  { network := .bitcoin, network_valid := true,
    spending_keys := [slotA], spending_threshold := 1,
    recovery_keys := [DescriptorKey.default], recovery_threshold := 1,
    sequence := { value := "1000", valid := true }, error := none }

/-- C10: apply overwrites the context network and key list before any
validation runs — on every input they hold the step network and the slots
key-alias list — and concretely a failed apply has mutated both, so a
failed assembly is not atomic with respect to the context. -/
theorem c10_apply_overwrites_context :
    (∀ (s : DefineDescriptor) (ctx : Context),
        (s.apply ctx).ctx.network = s.network ∧
        (s.apply ctx).ctx.keys = appliedKeySettings s) ∧
    ((c10s.apply c10ctx).ok = false ∧
     (c10s.apply c10ctx).ctx.keys ≠ c10ctx.keys ∧
     (c10s.apply c10ctx).ctx.network ≠ c10ctx.network) := by
  constructor
  · intro s ctx
    unfold DefineDescriptor.apply
    dsimp only
    constructor <;> (repeat' split) <;> rfl
  · exact ⟨by decide, by decide, by decide⟩

/-- A branch with at least two keys and a larger threshold fails the multi
construction. -/
theorem mkLianaKeys_error_of_lt (thresh : Nat)
    (keys : List DescriptorPublicKey) (h2 : 2 ≤ keys.length)
    (hlt : keys.length < thresh) :
    mkLianaKeys thresh keys = .error "invalid threshold" := by
  match keys, h2 with
  | a :: b :: rest, _ =>
    simp only [mkLianaKeys, LianaDescKeys.from_multi]
    rw [if_pos]
    exact Or.inr (Or.inl hlt)

/-- C1 (amended): apply fails and leaves the context descriptor unchanged
whenever the primary branch collects no key, or the recovery branch
collects no key, or the stored timelock text does not parse as an unsigned
16-bit integer, or a branch collects at least two keys and its threshold
exceeds their number.  (A branch with exactly one key is built with
from_single and its threshold is never consulted.) -/
theorem c1_apply_validation_failures :
    ∀ (s : DefineDescriptor) (ctx : Context),
      ((collectBranch s.spending_keys).2 = [] ∨
       (collectBranch s.recovery_keys).2 = [] ∨
       parseU16 s.sequence.value = none ∨
       (2 ≤ (collectBranch s.spending_keys).2.length ∧
        (collectBranch s.spending_keys).2.length < s.spending_threshold) ∨
       (2 ≤ (collectBranch s.recovery_keys).2.length ∧
        (collectBranch s.recovery_keys).2.length < s.recovery_threshold)) →
      (s.apply ctx).ok = false ∧
      (s.apply ctx).ctx.descriptor = ctx.descriptor := by
  intro s ctx h
  unfold DefineDescriptor.apply
  dsimp only
  split
  · exact ⟨rfl, rfl⟩
  · rename_i hguard
    simp only [Bool.or_eq_true, not_or] at hguard
    obtain ⟨⟨⟨hnv, hseq⟩, hrec⟩, hspend⟩ := hguard
    rcases h with h | h | h | ⟨h2, hlt⟩ | ⟨h2, hlt⟩
    · rw [h] at hspend
      exact absurd rfl hspend
    · rw [h] at hrec
      exact absurd rfl hrec
    · rw [h] at hseq
      exact absurd rfl hseq
    · rw [mkLianaKeys_error_of_lt _ _ h2 hlt]
      exact ⟨rfl, rfl⟩
    · split
      · exact ⟨rfl, rfl⟩
      · rw [mkLianaKeys_error_of_lt _ _ h2 hlt]
        exact ⟨rfl, rfl⟩

/-- C1 witness: the initial state collects no primary key, and apply on it
fails, leaving the empty context descriptor unset. -/
theorem c1_witness :
    (initialState.apply emptyCtx).ok = false ∧
    (initialState.apply emptyCtx).ctx.descriptor = emptyCtx.descriptor :=
  c1_apply_validation_failures initialState emptyCtx (Or.inl (by decide))

/-- State for the C1 counterexample: one populated primary slot with
threshold 2, one populated recovery slot, a valid timelock. -/
def c1s : DefineDescriptor :=
  { network := .bitcoin, network_valid := true,
    spending_keys := [slotA], spending_threshold := 2,
    recovery_keys := [slotB], recovery_threshold := 1,
    sequence := { value := "1000", valid := true }, error := none }

/-- Unfolding equation for lookupName on a cons cell. -/
theorem lookupName_cons (n : String) (f : Fingerprint)
    (rest : List (String × Fingerprint)) (a : String) :
    lookupName ((n, f) :: rest) a =
      if n = a then some f else lookupName rest a := rfl

/-- keyStep leaves the alias fields of the accumulator unchanged. -/
theorem keyStep_names (acc : ScanAcc) (k : DescriptorPublicKey) :
    (keyStep acc k).all_names = acc.all_names ∧
    (keyStep acc k).duplicate_names = acc.duplicate_names := by
  unfold keyStep
  split <;> exact ⟨rfl, rfl⟩

/-- The key fields of the accumulator after keyStep, as conditionals on
whether the key had been seen. -/
theorem keyStep_mem (acc : ScanAcc) (k : DescriptorPublicKey) :
    (keyStep acc k).all_keys =
      (if k ∈ acc.all_keys then acc.all_keys else k :: acc.all_keys) ∧
    (keyStep acc k).duplicate_keys =
      (if k ∈ acc.all_keys then k :: acc.duplicate_keys
       else acc.duplicate_keys) := by
  unfold keyStep
  split <;> exact ⟨rfl, rfl⟩

/-- nameStep leaves the key fields of the accumulator unchanged. -/
theorem nameStep_keys (acc : ScanAcc) (n : String) (f : Fingerprint) :
    (nameStep acc n f).all_keys = acc.all_keys ∧
    (nameStep acc n f).duplicate_keys = acc.duplicate_keys := by
  unfold nameStep
  split
  · split <;> exact ⟨rfl, rfl⟩
  · exact ⟨rfl, rfl⟩

/-- The duplicate-alias set only grows across one scan step. -/
theorem scanStep_dup_mono {acc : ScanAcc} {slot : DescriptorKey} {m : String}
    (h : m ∈ acc.duplicate_names) :
    m ∈ (scanStep acc slot).duplicate_names := by
  unfold scanStep
  split
  · exact h
  · rw [(keyStep_names _ _).2]
    unfold nameStep
    split
    · split
      · exact List.mem_cons_of_mem _ h
      · exact h
    · exact h

/-- The duplicate-alias set only grows across a whole scan. -/
theorem scan_dup_mono (l : List DescriptorKey) (acc : ScanAcc) (m : String)
    (h : m ∈ acc.duplicate_names) :
    m ∈ (l.foldl scanStep acc).duplicate_names := by
  induction l generalizing acc with
  | nil => exact h
  | cons x xs ih => exact ih _ (scanStep_dup_mono h)

/-- A recorded alias-to-fingerprint entry is never overwritten by a scan
step (the scan inserts an alias only when it is absent). -/
theorem scanStep_lookup_stable {acc : ScanAcc} {slot : DescriptorKey}
    {name : String} {fp : Fingerprint}
    (h : lookupName acc.all_names name = some fp) :
    lookupName (scanStep acc slot).all_names name = some fp := by
  unfold scanStep
  split
  · exact h
  · rw [(keyStep_names _ _).1]
    unfold nameStep
    cases hl : lookupName acc.all_names slot.name with
    | some g =>
      dsimp only
      split <;> exact h
    | none =>
      dsimp only
      by_cases hn : slot.name = name
      · rw [hn] at hl
        rw [h] at hl
        cases hl
      · rw [lookupName_cons, if_neg hn]
        exact h

/-- A recorded alias-to-fingerprint entry survives a whole scan. -/
theorem scan_lookup_stable (l : List DescriptorKey) (acc : ScanAcc)
    (name : String) (fp : Fingerprint)
    (h : lookupName acc.all_names name = some fp) :
    lookupName (l.foldl scanStep acc).all_names name = some fp := by
  induction l generalizing acc with
  | nil => exact h
  | cons x xs ih => exact ih _ (scanStep_lookup_stable h)

/-- After a scan, every populated slot of the scanned list either has its
alias in the duplicate-alias set, or has its alias recorded with its own
master fingerprint. -/
theorem scan_records (l : List DescriptorKey) (acc : ScanAcc)
    (slot : DescriptorKey) (k : DescriptorPublicKey)
    (hmem : slot ∈ l) (hk : slot.key = some k) :
    slot.name ∈ (l.foldl scanStep acc).duplicate_names ∨
    lookupName (l.foldl scanStep acc).all_names slot.name =
      some k.master_fingerprint := by
  induction l generalizing acc with
  | nil => cases hmem
  | cons x xs ih =>
    rw [List.foldl_cons]
    rcases List.mem_cons.mp hmem with rfl | hmem2
    · have hstep : scanStep acc slot =
          keyStep (nameStep acc slot.name k.master_fingerprint) k := by
        unfold scanStep
        rw [hk]
      rw [hstep]
      cases hl : lookupName acc.all_names slot.name with
      | some f =>
        by_cases hf : f = k.master_fingerprint
        · right
          apply scan_lookup_stable
          rw [(keyStep_names _ _).1]
          have hstable : lookupName (nameStep acc slot.name
              k.master_fingerprint).all_names slot.name = some f := by
            unfold nameStep
            rw [hl]
            dsimp only
            split <;> exact hl
          rw [hstable, hf]
        · left
          apply scan_dup_mono
          rw [(keyStep_names _ _).2]
          unfold nameStep
          rw [hl]
          dsimp only
          rw [if_pos hf]
          exact List.mem_cons_self _ _
      | none =>
        right
        apply scan_lookup_stable
        rw [(keyStep_names _ _).1]
        unfold nameStep
        rw [hl]
        dsimp only
        rw [lookupName_cons, if_pos rfl]
    · exact ih _ hmem2

/-- Two populated slots of one scanned list sharing an alias but with
different master fingerprints put that alias into the duplicate-alias set. -/
theorem dup_name_of_conflict (l : List DescriptorKey)
    (sl1 sl2 : DescriptorKey) (k1 k2 : DescriptorPublicKey)
    (h1 : sl1 ∈ l) (h2 : sl2 ∈ l) (hk1 : sl1.key = some k1)
    (hk2 : sl2.key = some k2) (hn : sl1.name = sl2.name)
    (hf : k1.master_fingerprint ≠ k2.master_fingerprint) :
    sl1.name ∈ (l.foldl scanStep emptyAcc).duplicate_names := by
  rcases scan_records l emptyAcc sl1 k1 h1 hk1 with h | hA
  · exact h
  rcases scan_records l emptyAcc sl2 k2 h2 hk2 with h | hB
  · rw [hn]
    exact h
  rw [hn] at hA
  rw [hA] at hB
  exact absurd (Option.some.inj hB) hf

/-- If every populated slot of the scanned list carrying a given alias has
master fingerprint f0, and the accumulator does not yet contradict that,
the alias never enters the duplicate-alias set. -/
theorem scan_agree (l : List DescriptorKey) (acc : ScanAcc) (a : String)
    (f0 : Fingerprint)
    (hdup : a ∉ acc.duplicate_names)
    (hlook : ∀ g, lookupName acc.all_names a = some g → g = f0)
    (hl : ∀ sl ∈ l, ∀ k, sl.key = some k → sl.name = a →
        k.master_fingerprint = f0) :
    a ∉ (l.foldl scanStep acc).duplicate_names := by
  induction l generalizing acc with
  | nil => exact hdup
  | cons x xs ih =>
    rw [List.foldl_cons]
    have hstep : a ∉ (scanStep acc x).duplicate_names ∧
        (∀ g, lookupName (scanStep acc x).all_names a = some g → g = f0) := by
      unfold scanStep
      cases hk : x.key with
      | none => exact ⟨hdup, hlook⟩
      | some k =>
        rw [(keyStep_names _ _).2, (keyStep_names _ _).1]
        unfold nameStep
        cases hl2 : lookupName acc.all_names x.name with
        | some g =>
          dsimp only
          split
          · rename_i hne
            constructor
            · intro hmem
              rcases List.mem_cons.mp hmem with heq | hmem2
              · have hxa : x.name = a := heq.symm
                have hkf : k.master_fingerprint = f0 :=
                  hl x (List.mem_cons_self _ _) k hk hxa
                rw [hxa] at hl2
                exact hne ((hlook g hl2).trans hkf.symm)
              · exact hdup hmem2
            · exact hlook
          · exact ⟨hdup, hlook⟩
        | none =>
          dsimp only
          refine ⟨hdup, ?_⟩
          intro g hg
          rw [lookupName_cons] at hg
          by_cases hxa : x.name = a
          · rw [if_pos hxa] at hg
            rw [← Option.some.inj hg]
            exact hl x (List.mem_cons_self _ _) k hk hxa
          · rw [if_neg hxa] at hg
            exact hlook g hg
    exact ih _ hstep.1 hstep.2
      (fun sl hm => hl sl (List.mem_cons_of_mem _ hm))

/-- The key count across a cons cell. -/
theorem keyCount_cons (x : DescriptorKey) (xs : List DescriptorKey)
    (k : DescriptorPublicKey) :
    keyCount (x :: xs) k =
      keyCount xs k + (if x.key = some k then 1 else 0) := by
  unfold keyCount
  rw [List.countP_cons]
  by_cases h : x.key = some k
  · rw [if_pos h]
    simp [h]
  · rw [if_neg h]
    simp [h]

/-- Membership in the seen-keys set after a scan counts the populated slots
holding that key at least once. -/
theorem scan_all_keys (l : List DescriptorKey) (acc : ScanAcc)
    (k : DescriptorPublicKey) :
    k ∈ (l.foldl scanStep acc).all_keys ↔
      k ∈ acc.all_keys ∨ 1 ≤ keyCount l k := by
  induction l generalizing acc with
  | nil =>
    simp [keyCount]
  | cons x xs ih =>
    rw [List.foldl_cons, keyCount_cons]
    cases hk : x.key with
    | none =>
      have hstep : scanStep acc x = acc := by
        unfold scanStep
        rw [hk]
      rw [hstep, if_neg (fun h => Option.noConfusion h), Nat.add_zero]
      exact ih acc
    | some kx =>
      have hstep : scanStep acc x =
          keyStep (nameStep acc x.name kx.master_fingerprint) kx := by
        unfold scanStep
        rw [hk]
      rw [hstep, ih, (keyStep_mem _ _).1,
        (nameStep_keys acc x.name kx.master_fingerprint).1]
      by_cases hkk : kx = k
      · rw [hkk, if_pos rfl]
        by_cases hin : k ∈ acc.all_keys
        · rw [if_pos hin]
          simp [hin]
        · rw [if_neg hin]
          constructor
          · intro _
            right
            omega
          · intro _
            left
            exact List.mem_cons_self _ _
      · have hne : ¬ some kx = some k := fun h => hkk (Option.some.inj h)
        have hne2 : ¬ k = kx := fun h => hkk h.symm
        rw [if_neg hne]
        by_cases hin : kx ∈ acc.all_keys
        · rw [if_pos hin]
          simp
        · rw [if_neg hin]
          simp [List.mem_cons, hne2]

/-- Membership in the duplicate-keys set after a scan counts the populated
slots holding that key at least twice. -/
theorem scan_dup_keys (l : List DescriptorKey) (acc : ScanAcc)
    (k : DescriptorPublicKey) :
    k ∈ (l.foldl scanStep acc).duplicate_keys ↔
      k ∈ acc.duplicate_keys ∨ (k ∈ acc.all_keys ∧ 1 ≤ keyCount l k) ∨
      2 ≤ keyCount l k := by
  induction l generalizing acc with
  | nil =>
    simp [keyCount]
  | cons x xs ih =>
    rw [List.foldl_cons, keyCount_cons]
    cases hk : x.key with
    | none =>
      have hstep : scanStep acc x = acc := by
        unfold scanStep
        rw [hk]
      rw [hstep, if_neg (fun h => Option.noConfusion h), Nat.add_zero]
      exact ih acc
    | some kx =>
      have hstep : scanStep acc x =
          keyStep (nameStep acc x.name kx.master_fingerprint) kx := by
        unfold scanStep
        rw [hk]
      rw [hstep, ih, (keyStep_mem _ _).1, (keyStep_mem _ _).2,
        (nameStep_keys acc x.name kx.master_fingerprint).1,
        (nameStep_keys acc x.name kx.master_fingerprint).2]
      by_cases hkk : kx = k
      · rw [hkk, if_pos rfl]
        by_cases hin : k ∈ acc.all_keys
        · rw [if_pos hin, if_pos hin]
          constructor
          · intro _
            exact Or.inr (Or.inl ⟨hin, by omega⟩)
          · intro _
            exact Or.inl (List.mem_cons_self _ _)
        · rw [if_neg hin, if_neg hin]
          constructor
          · intro h
            rcases h with h | ⟨_, h1⟩ | h2
            · exact Or.inl h
            · exact Or.inr (Or.inr (by omega))
            · exact Or.inr (Or.inr (by omega))
          · intro h
            rcases h with h | ⟨hmem, _⟩ | h2
            · exact Or.inl h
            · exact absurd hmem hin
            · exact Or.inr (Or.inl ⟨List.mem_cons_self _ _, by omega⟩)
      · have hne : ¬ some kx = some k := fun h => hkk (Option.some.inj h)
        have hne2 : ¬ k = kx := fun h => hkk h.symm
        rw [if_neg hne]
        by_cases hin : kx ∈ acc.all_keys
        · rw [if_pos hin, if_pos hin]
          simp [List.mem_cons, hne2]
        · rw [if_neg hin, if_neg hin]
          simp [List.mem_cons, hne2]

/-- check_for_duplicate expressed through one scan of the combined pool. -/
theorem check_for_duplicate_eq (s : DefineDescriptor) :
    check_for_duplicate s =
      { s with
        spending_keys := s.spending_keys.map
          (applyPrimaryFlags ((pool s).foldl scanStep emptyAcc)),
        recovery_keys := s.recovery_keys.map
          (applyRecoveryFlags ((pool s).foldl scanStep emptyAcc)) } := by
  unfold check_for_duplicate pool
  rw [List.foldl_append]

/-- The primary-branch flag rewrite changes only the duplicate flags and
sets duplicate_name from the duplicate-alias set. -/
theorem applyPrimaryFlags_fields (acc : ScanAcc) (sl : DescriptorKey) :
    (applyPrimaryFlags acc sl).key = sl.key ∧
    (applyPrimaryFlags acc sl).name = sl.name ∧
    (applyPrimaryFlags acc sl).valid = sl.valid ∧
    (applyPrimaryFlags acc sl).duplicate_name =
      decide (sl.name ∈ acc.duplicate_names) := by
  unfold applyPrimaryFlags
  dsimp only
  cases hsl : sl.key <;> exact ⟨rfl, rfl, rfl, rfl⟩

/-- duplicate_key of a populated slot after the primary flag rewrite. -/
theorem applyPrimaryFlags_dupkey (acc : ScanAcc) (sl : DescriptorKey)
    (k : DescriptorPublicKey) (hk : sl.key = some k) :
    (applyPrimaryFlags acc sl).duplicate_key =
      decide (k ∈ acc.duplicate_keys) := by
  unfold applyPrimaryFlags
  dsimp only
  rw [hk]

/-- The recovery-branch flag rewrite keeps key, name, valid and — notably —
duplicate_name unchanged. -/
theorem applyRecoveryFlags_fields (acc : ScanAcc) (sl : DescriptorKey) :
    (applyRecoveryFlags acc sl).key = sl.key ∧
    (applyRecoveryFlags acc sl).name = sl.name ∧
    (applyRecoveryFlags acc sl).valid = sl.valid ∧
    (applyRecoveryFlags acc sl).duplicate_name = sl.duplicate_name := by
  unfold applyRecoveryFlags
  cases hsl : sl.key <;>
    first
      | exact ⟨rfl, rfl, rfl, rfl⟩
      | exact ⟨hsl, rfl, rfl, rfl⟩

/-- duplicate_key of a populated slot after the recovery flag rewrite. -/
theorem applyRecoveryFlags_dupkey (acc : ScanAcc) (sl : DescriptorKey)
    (k : DescriptorPublicKey) (hk : sl.key = some k) :
    (applyRecoveryFlags acc sl).duplicate_key =
      decide (k ∈ acc.duplicate_keys) := by
  unfold applyRecoveryFlags
  rw [hk]

/-- C6: after every duplicate-detector run, a populated slot of the
combined primary+recovery pool carries duplicate_key = true exactly when
the pool holds its key content in at least two slots — so two slots with
identical imported key content are both flagged, and a slot whose key
matches no other slot is not flagged. -/
theorem c6_duplicate_key_flags :
    ∀ (s : DefineDescriptor) (sl : DescriptorKey) (k : DescriptorPublicKey),
      sl ∈ pool (check_for_duplicate s) → sl.key = some k →
      (sl.duplicate_key = true ↔ 2 ≤ keyCount (pool s) k) := by
  intro s sl k hmem hk
  rw [check_for_duplicate_eq] at hmem
  simp only [pool] at hmem
  rcases List.mem_append.mp hmem with hm | hm
  · rcases List.mem_map.mp hm with ⟨sl0, hsl0, rfl⟩
    have hkeep := applyPrimaryFlags_fields ((pool s).foldl scanStep emptyAcc) sl0
    have hk0 : sl0.key = some k := by
      rw [← hkeep.1]
      exact hk
    rw [applyPrimaryFlags_dupkey _ _ _ hk0, decide_eq_true_eq, scan_dup_keys]
    simp [emptyAcc, pool]
  · rcases List.mem_map.mp hm with ⟨sl0, hsl0, rfl⟩
    have hkeep := applyRecoveryFlags_fields ((pool s).foldl scanStep emptyAcc) sl0
    have hk0 : sl0.key = some k := by
      rw [← hkeep.1]
      exact hk
    rw [applyRecoveryFlags_dupkey _ _ _ hk0, decide_eq_true_eq, scan_dup_keys]
    simp [emptyAcc, pool]

/-- State for the C6 witness: the same key imported in one primary and one
recovery slot. -/
def c6s : DefineDescriptor :=
  { network := .bitcoin, network_valid := true,
    spending_keys := [slotA], spending_threshold := 1,
    recovery_keys := [{ name := "alice2", valid := true, key := some keyA,
                        duplicate_key := false, duplicate_name := false }],
    recovery_threshold := 1,
    sequence := { value := "", valid := false }, error := none }

/-- The primary slot of c6s after the detector run. -/
def c6slot : DescriptorKey :=
  ((check_for_duplicate c6s).spending_keys).headD DescriptorKey.default

/-- C6 witness: the key held by both branches of c6s gets its primary slot
flagged duplicate after the run. -/
theorem c6_witness : c6slot.duplicate_key = true :=
  (c6_duplicate_key_flags c6s c6slot keyA (by decide) (by decide)).mpr
    (by decide)

/-- C2 (amended): the scan computes the duplicate-alias set over both
branches, but only primary slots get duplicate_name recomputed — any alias
conflict (equal alias, different master fingerprints) among populated pool
slots flags every primary slot carrying that alias; an alias whose
populated holders all share one fingerprint leaves every primary slot
carrying it unflagged; and recovery slots keep their previous
duplicate_name verbatim. -/
theorem c2_duplicate_name_flags :
    (∀ (s : DefineDescriptor) (sl1 sl2 : DescriptorKey)
        (k1 k2 : DescriptorPublicKey) (sl : DescriptorKey),
        sl1 ∈ pool s → sl2 ∈ pool s → sl1.key = some k1 →
        sl2.key = some k2 → sl1.name = sl2.name →
        k1.master_fingerprint ≠ k2.master_fingerprint →
        sl ∈ (check_for_duplicate s).spending_keys → sl.name = sl1.name →
        sl.duplicate_name = true) ∧
    (∀ (s : DefineDescriptor) (a : String) (f0 : Fingerprint)
        (sl : DescriptorKey),
        (∀ sl0 ∈ pool s, ∀ k, sl0.key = some k → sl0.name = a →
            k.master_fingerprint = f0) →
        sl ∈ (check_for_duplicate s).spending_keys → sl.name = a →
        sl.duplicate_name = false) ∧
    (∀ (s : DefineDescriptor) (i : Nat),
        Option.map DescriptorKey.duplicate_name
            ((check_for_duplicate s).recovery_keys.get? i) =
          Option.map DescriptorKey.duplicate_name (s.recovery_keys.get? i)) := by
  refine ⟨?_, ?_, ?_⟩
  · intro s sl1 sl2 k1 k2 sl h1 h2 hk1 hk2 hn hf hmem hname
    rw [check_for_duplicate_eq] at hmem
    dsimp only at hmem
    rcases List.mem_map.mp hmem with ⟨sl0, hsl0, rfl⟩
    have hkeep := applyPrimaryFlags_fields ((pool s).foldl scanStep emptyAcc) sl0
    rw [hkeep.2.2.2]
    rw [hkeep.2.1] at hname
    rw [hname]
    exact decide_eq_true (dup_name_of_conflict (pool s) sl1 sl2 k1 k2 h1 h2
      hk1 hk2 hn hf)
  · intro s a f0 sl hall hmem hname
    rw [check_for_duplicate_eq] at hmem
    dsimp only at hmem
    rcases List.mem_map.mp hmem with ⟨sl0, hsl0, rfl⟩
    have hkeep := applyPrimaryFlags_fields ((pool s).foldl scanStep emptyAcc) sl0
    rw [hkeep.2.2.2]
    rw [hkeep.2.1] at hname
    rw [hname]
    apply decide_eq_false
    exact scan_agree (pool s) emptyAcc a f0 (by simp [emptyAcc])
      (by intro g hg; simp [emptyAcc, lookupName] at hg) hall
  · intro s i
    rw [check_for_duplicate_eq]
    dsimp only
    rw [List.get?_map]
    cases s.recovery_keys.get? i with
    | none => rfl
    | some sl =>
      dsimp only [Option.map]
      rw [(applyRecoveryFlags_fields _ _).2.2.2]

/-- A second slot named alice but holding a key with a different master
fingerprint. -/
def slotA2 : DescriptorKey :=
  { name := "alice", valid := true, key := some keyB,
    duplicate_key := false, duplicate_name := false }

/-- State for the C2 witness: two primary slots sharing the alias alice
with different fingerprints. -/
def c2s : DefineDescriptor :=
  { network := .bitcoin, network_valid := true,
    spending_keys := [slotA, slotA2], spending_threshold := 1,
    recovery_keys := [DescriptorKey.default], recovery_threshold := 1,
    sequence := { value := "", valid := false }, error := none }

/-- First primary slot of c2s after the detector run. -/
def c2slot : DescriptorKey :=
  ((check_for_duplicate c2s).spending_keys).headD DescriptorKey.default

/-- C2 witness: the conflicting alias of c2s flags its primary slot. -/
theorem c2_witness : c2slot.duplicate_name = true :=
  c2_duplicate_name_flags.1 c2s slotA slotA2 keyA keyB c2slot (by decide)
    (by decide) (by decide) (by decide) (by decide) (by decide) (by decide)
    (by decide)

/-- Two recovery slots sharing the alias carol over different fingerprints. -/
def slotR1 : DescriptorKey :=
  { name := "carol", valid := true, key := some keyA,
    duplicate_key := false, duplicate_name := false }

/-- The second carol slot, holding the other fingerprint. -/
def slotR2 : DescriptorKey :=
  { name := "carol", valid := true, key := some keyB,
    duplicate_key := false, duplicate_name := false }

/-- State for the C2 counterexample: the alias conflict sits entirely in
the recovery branch. -/
def c2bad : DefineDescriptor :=
  { network := .bitcoin, network_valid := true,
    spending_keys := [DescriptorKey.default], spending_threshold := 1,
    recovery_keys := [slotR1, slotR2], recovery_threshold := 1,
    sequence := { value := "", valid := false }, error := none }

/-- C2 counterexample to the claim as stated: two populated recovery slots
share the alias carol over different master fingerprints, yet after the
detector run both still carry duplicate_name = false — the recomputation
pass only touches the primary branch. -/
theorem c2_counterexample :
    c2bad.recovery_keys.get? 0 = some slotR1 ∧
    c2bad.recovery_keys.get? 1 = some slotR2 ∧
    slotR1.name = slotR2.name ∧
    slotR1.key = some keyA ∧
    slotR2.key = some keyB ∧
    keyA.master_fingerprint ≠ keyB.master_fingerprint ∧
    Option.map DescriptorKey.duplicate_name
      ((check_for_duplicate c2bad).recovery_keys.get? 0) = some false ∧
    Option.map DescriptorKey.duplicate_name
      ((check_for_duplicate c2bad).recovery_keys.get? 1) = some false := by
  decide

/-- C5 (amended): selecting a device whose fingerprint is already in the
registered set issues no request and changes nothing; a registration
completing with an error sets the error field and clears the in-flight
markers (processing flag and chosen device) and changes nothing else — in
particular the registered set and the (fingerprint, kind, token) list are
exactly as they were. -/
theorem c5_registration_error_frame :
    (∀ (s : RegisterState) (i : Nat) (fp : Fingerprint) (kind : Nat),
        s.hws.get? i = some (.supported fp kind) → fp ∈ s.registered →
        s.update (.select i) = some (s, none)) ∧
    (∀ (s : RegisterState) (e : String),
        s.update (.walletRegistered (.error e)) =
          some ({ s with processing := false, chosen_hw := none,
                         error := some e }, none)) := by
  constructor
  · intro s i fp kind hget hmem
    unfold RegisterState.update
    dsimp only
    rw [hget]
    dsimp only
    rw [if_pos hmem]
  · intro s e
    rfl

/-- Registration state for the C5 witness: one supported device already
registered. -/
def c5reg : RegisterState :=
  { descriptor := none, processing := false, chosen_hw := none,
    hws := [.supported 5 0], hmacs := [], registered := [5],
    error := none, done := false }

/-- C5 witness: selecting the already-registered device of c5reg issues no
request and returns the state unchanged. -/
theorem c5_witness : c5reg.update (.select 0) = some (c5reg, none) :=
  c5_registration_error_frame.1 c5reg 0 5 0 (by decide) (by decide)

/-- Registration state for the C5 counterexample: a registration in flight
(processing set, a chosen device) with one device already registered. -/
def c5busy : RegisterState :=
  { descriptor := none, processing := true, chosen_hw := some 0,
    hws := [.supported 7 1], hmacs := [(7, 1, some 3)], registered := [7],
    error := none, done := false }

/-- Processing flag of the state produced by a RegisterState update. -/
def regUpdProcessing (o : Option (RegisterState × Option RegRequest)) :
    Option Bool :=
  o.map fun r => r.1.processing

/-- C5 counterexample to the claim as stated: when a registration completes
with an error, not only the error field changes — the processing flag flips
from true to false (and the chosen device is cleared). -/
theorem c5_counterexample :
    regUpdProcessing (c5busy.update (.walletRegistered (.error "refused"))) =
      some false ∧
    c5busy.processing = true := by decide

/-- C1 counterexample to the claim as stated: with a single-key primary set
whose threshold 2 exceeds its one key, apply succeeds — the oversized
threshold is never consulted on a one-key branch, so assembly does not fail
on it. -/
theorem c1_counterexample :
    (collectBranch c1s.spending_keys).2.length = 1 ∧
    c1s.spending_threshold = 2 ∧
    (c1s.apply emptyCtx).ok = true := by decide



/-- Side conditions under which the registry update keeps the threshold
invariant: threshold edits carry a value between 1 and the owning branch
slot count, and deletes hit an existing slot of a branch that keeps at
least one slot. -/
def goodMsg (s : DefineDescriptor) : Msg → Bool
  | .thresholdEdited r v =>
    decide (1 ≤ v) && decide (v ≤ (branchSlots s r).length)
  | .keyDelete r i =>
    decide (i < (branchSlots s r).length) &&
      decide (2 ≤ (branchSlots s r).length)
  | _ => true

/-- The KeySet invariant of the spec: both branch thresholds lie between 1
and the branch slot count. -/
def invariantHolds (s : DefineDescriptor) : Bool :=
  decide (1 ≤ s.spending_threshold) &&
  decide (s.spending_threshold ≤ s.spending_keys.length) &&
  decide (1 ≤ s.recovery_threshold) &&
  decide (s.recovery_threshold ≤ s.recovery_keys.length)

/-- A trace of messages each satisfying goodMsg in the state it meets. -/
def goodTrace (s : DefineDescriptor) : List Msg → Bool
  | [] => true
  | m :: ms =>
    goodMsg s m &&
      (match s.update m with
       | some t => goodTrace t ms
       | none => false)

/-- The threshold invariant as a proposition. -/
theorem invariantHolds_iff (s : DefineDescriptor) :
    invariantHolds s = true ↔
      1 ≤ s.spending_threshold ∧
      s.spending_threshold ≤ s.spending_keys.length ∧
      1 ≤ s.recovery_threshold ∧
      s.recovery_threshold ≤ s.recovery_keys.length := by
  unfold invariantHolds
  simp [Bool.and_eq_true, decide_eq_true_eq, and_assoc]

/-- The duplicate detector changes no lengths and no thresholds. -/
theorem invariantHolds_check_for_duplicate (s : DefineDescriptor) :
    invariantHolds (check_for_duplicate s) = invariantHolds s := by
  unfold invariantHolds
  rw [check_for_duplicate_eq]
  dsimp only
  rw [List.length_map, List.length_map]

/-- One step of the threshold-invariant preservation: a goodMsg update from
an invariant state returns normally into an invariant state. -/
theorem c7_step (s : DefineDescriptor) (m : Msg)
    (hinv : invariantHolds s = true) (hok : goodMsg s m = true) :
    ∃ t, s.update m = some t ∧ invariantHolds t = true := by
  rw [invariantHolds_iff] at hinv
  obtain ⟨h1, h2, h3, h4⟩ := hinv
  cases m with
  | network n =>
    refine ⟨_, rfl, ?_⟩
    rw [invariantHolds_iff]
    unfold set_network
    dsimp only
    rw [List.length_map, List.length_map]
    exact ⟨h1, h2, h3, h4⟩
  | thresholdEdited r v =>
    unfold goodMsg at hok
    rw [Bool.and_eq_true, decide_eq_true_eq, decide_eq_true_eq] at hok
    obtain ⟨hv1, hv2⟩ := hok
    cases r
    · refine ⟨_, rfl, ?_⟩
      rw [invariantHolds_iff]
      refine ⟨hv1, ?_, h3, h4⟩
      simpa [branchSlots] using hv2
    · refine ⟨_, rfl, ?_⟩
      rw [invariantHolds_iff]
      refine ⟨h1, h2, hv1, ?_⟩
      simpa [branchSlots] using hv2
  | sequenceEdited seq =>
    by_cases hc : (seq.isEmpty || (parseU16 seq).isSome) = true
    · refine ⟨{ s with
          error := none,
          sequence := { value := seq, valid := true } }, ?_, ?_⟩
      · unfold DefineDescriptor.update
        dsimp only
        rw [if_pos hc]
      · rw [invariantHolds_iff]
        exact ⟨h1, h2, h3, h4⟩
    · refine ⟨{ s with
          error := none,
          sequence := { value := s.sequence.value, valid := true } }, ?_, ?_⟩
      · unfold DefineDescriptor.update
        dsimp only
        rw [if_neg hc]
      · rw [invariantHolds_iff]
        exact ⟨h1, h2, h3, h4⟩
  | addKey r =>
    cases r
    · refine ⟨_, rfl, ?_⟩
      rw [invariantHolds_iff]
      dsimp only
      rw [List.length_append]
      exact ⟨by omega, by simpa using Nat.succ_le_succ h2, h3, h4⟩
    · refine ⟨_, rfl, ?_⟩
      rw [invariantHolds_iff]
      dsimp only
      rw [List.length_append]
      exact ⟨h1, h2, by omega, by simpa using Nat.succ_le_succ h4⟩
  | keyEdited r i name key =>
    cases r <;>
      refine ⟨_, rfl, ?_⟩ <;>
      rw [invariantHolds_check_for_duplicate, invariantHolds_iff] <;>
      unfold edit_alias_for_key_with_same_fingerprint <;>
      dsimp only <;>
      simp only [Bool.false_eq_true, Bool.true_eq_false, reduceIte] <;>
      rw [length_modifyAt, List.length_map, List.length_map] <;>
      exact ⟨h1, h2, h3, h4⟩
  | keyDelete r i =>
    unfold goodMsg at hok
    rw [Bool.and_eq_true, decide_eq_true_eq, decide_eq_true_eq] at hok
    obtain ⟨hi, hlen⟩ := hok
    cases r
    · have hi2 : i < s.spending_keys.length := by simpa [branchSlots] using hi
      have hlen2 : 2 ≤ s.spending_keys.length := by
        simpa [branchSlots] using hlen
      have he : (s.spending_keys.eraseIdx i).length =
          s.spending_keys.length - 1 := by
        rw [List.length_eraseIdx]
        simp [hi2]
      refine ⟨check_for_duplicate
          { s with
            error := none,
            spending_keys := s.spending_keys.eraseIdx i,
            spending_threshold :=
              if (s.spending_keys.eraseIdx i).length < s.spending_threshold
              then s.spending_threshold - 1
              else s.spending_threshold }, ?_, ?_⟩
      · unfold DefineDescriptor.update
        dsimp only
        simp only [Bool.false_eq_true, Bool.true_eq_false, reduceIte]
        rw [if_pos hi2]
      · rw [invariantHolds_check_for_duplicate, invariantHolds_iff]
        dsimp only
        rw [he]
        split <;> exact ⟨by omega, by omega, h3, h4⟩
    · have hi2 : i < s.recovery_keys.length := by simpa [branchSlots] using hi
      have hlen2 : 2 ≤ s.recovery_keys.length := by
        simpa [branchSlots] using hlen
      have he : (s.recovery_keys.eraseIdx i).length =
          s.recovery_keys.length - 1 := by
        rw [List.length_eraseIdx]
        simp [hi2]
      refine ⟨check_for_duplicate
          { s with
            error := none,
            recovery_keys := s.recovery_keys.eraseIdx i,
            recovery_threshold :=
              if (s.recovery_keys.eraseIdx i).length < s.recovery_threshold
              then s.recovery_threshold - 1
              else s.recovery_threshold }, ?_, ?_⟩
      · unfold DefineDescriptor.update
        dsimp only
        simp only [Bool.false_eq_true, Bool.true_eq_false, reduceIte]
        rw [if_pos hi2]
      · rw [invariantHolds_check_for_duplicate, invariantHolds_iff]
        dsimp only
        rw [he]
        split <;> exact ⟨h1, h2, by omega, by omega⟩

/-- Invariant preservation along a whole good trace. -/
theorem c7_seq (ms : List Msg) :
    ∀ s, invariantHolds s = true → goodTrace s ms = true →
      (updateSeq s ms).isSome = true ∧
      Option.all invariantHolds (updateSeq s ms) = true := by
  induction ms with
  | nil =>
    intro s h _
    exact ⟨rfl, by simpa using h⟩
  | cons m ms ih =>
    intro s h hg
    unfold goodTrace at hg
    rw [Bool.and_eq_true] at hg
    obtain ⟨hok, hrest⟩ := hg
    obtain ⟨t, ht, hinvt⟩ := c7_step s m h hok
    rw [ht] at hrest
    unfold updateSeq
    rw [ht]
    exact ih t hinvt hrest

/-- C7 (amended): the invariant 1 ≤ threshold ≤ slot count holds for both
key sets in the initial DefineDescriptor state and in every state reached
by a sequence of update operations whose threshold edits stay within
[1, slot count] and whose deletes hit an existing slot of a branch with at
least two slots; in particular a delete clamps the owning threshold so the
invariant survives.  (Unrestricted threshold edits break it — see the
counterexample.) -/
theorem c7_threshold_invariant :
    invariantHolds initialState = true ∧
    ∀ (ms : List Msg), goodTrace initialState ms = true →
      (updateSeq initialState ms).isSome = true ∧
      Option.all invariantHolds (updateSeq initialState ms) = true := by
  constructor
  · decide
  · intro ms hg
    exact c7_seq ms initialState (by decide) hg

/-- C7 witness: growing the primary set, deleting its new slot and setting
threshold 1 is a good trace from the initial state, and the invariant holds
at its end. -/
theorem c7_witness :
    (updateSeq initialState [Msg.addKey false, Msg.keyDelete false 1,
        Msg.thresholdEdited false 1]).isSome = true ∧
    Option.all invariantHolds (updateSeq initialState
        [Msg.addKey false, Msg.keyDelete false 1,
         Msg.thresholdEdited false 1]) = true :=
  c7_threshold_invariant.2 _ (by decide)

/-- C7 counterexample to the claim as stated: the single update
ThresholdEdited(primary, 2) is accepted from the initial one-slot state and
leaves the primary threshold at 2 with one slot — the invariant fails. -/
theorem c7_counterexample :
    (updateSeq initialState [Msg.thresholdEdited false 2]).isSome = true ∧
    Option.all invariantHolds
      (updateSeq initialState [Msg.thresholdEdited false 2]) = false := by
  decide

/-- Per-slot validity conformance: the valid flag of a populated slot
agrees with the network check of its key; empty slots conform trivially. -/
def slotValidOk (network : Network) (sl : DescriptorKey) : Bool :=
  match sl.key with
  | some k => sl.valid == check_key_network k network
  | none => true

/-- Every slot of both branches conforms to the active network. -/
def invValid (s : DefineDescriptor) : Bool :=
  (pool s).all (slotValidOk s.network)

/-- The conformance predicate as a membership statement. -/
theorem invValid_iff (s : DefineDescriptor) :
    invValid s = true ↔
      ∀ sl ∈ pool s, slotValidOk s.network sl = true := by
  unfold invValid
  rw [List.all_eq_true]

/-- slotValidOk only looks at the key and valid fields. -/
theorem slotValidOk_congr (net : Network) (sl1 sl2 : DescriptorKey)
    (hk : sl1.key = sl2.key) (hv : sl1.valid = sl2.valid) :
    slotValidOk net sl1 = slotValidOk net sl2 := by
  unfold slotValidOk
  rw [hk, hv]

/-- A slot just passed through check_network conforms. -/
theorem slotValidOk_check_network (network : Network) (sl : DescriptorKey) :
    slotValidOk network (DescriptorKey.check_network sl network) = true := by
  unfold DescriptorKey.check_network
  cases hsl : sl.key with
  | none =>
    unfold slotValidOk
    rw [hsl]
  | some k =>
    unfold slotValidOk
    dsimp only
    exact beq_self_eq_true _

/-- The primary flag rewrite does not affect conformance. -/
theorem slotValidOk_applyPrimaryFlags (net : Network) (acc : ScanAcc)
    (sl : DescriptorKey) :
    slotValidOk net (applyPrimaryFlags acc sl) = slotValidOk net sl :=
  slotValidOk_congr net _ _ (applyPrimaryFlags_fields acc sl).1
    (applyPrimaryFlags_fields acc sl).2.2.1

/-- The recovery flag rewrite does not affect conformance. -/
theorem slotValidOk_applyRecoveryFlags (net : Network) (acc : ScanAcc)
    (sl : DescriptorKey) :
    slotValidOk net (applyRecoveryFlags acc sl) = slotValidOk net sl :=
  slotValidOk_congr net _ _ (applyRecoveryFlags_fields acc sl).1
    (applyRecoveryFlags_fields acc sl).2.2.1

/-- The duplicate detector preserves conformance. -/
theorem invValid_check_of (s : DefineDescriptor) (h : invValid s = true) :
    invValid (check_for_duplicate s) = true := by
  rw [check_for_duplicate_eq, invValid_iff]
  rw [invValid_iff] at h
  intro sl hsl
  simp only [pool] at hsl ⊢
  try dsimp only at hsl ⊢
  rcases List.mem_append.mp hsl with hm | hm
  · rcases List.mem_map.mp hm with ⟨sl0, hsl0, rfl⟩
    rw [slotValidOk_applyPrimaryFlags]
    exact h sl0 (List.mem_append.mpr (Or.inl hsl0))
  · rcases List.mem_map.mp hm with ⟨sl0, hsl0, rfl⟩
    rw [slotValidOk_applyRecoveryFlags]
    exact h sl0 (List.mem_append.mpr (Or.inr hsl0))

/-- Membership after a positional replacement: an element is an untouched
original or the image of an original. -/
theorem mem_modifyAt {α : Type} {x : α} :
    ∀ (l : List α) (i : Nat) (f : α → α), x ∈ modifyAt l i f →
      x ∈ l ∨ ∃ y, y ∈ l ∧ x = f y := by
  intro l
  induction l with
  | nil =>
    intro i f hx
    cases hx
  | cons a as ih =>
    intro i f hx
    cases i with
    | zero =>
      rcases List.mem_cons.mp hx with rfl | hmem
      · exact Or.inr ⟨a, List.mem_cons_self _ _, rfl⟩
      · exact Or.inl (List.mem_cons_of_mem _ hmem)
    | succ n =>
      rcases List.mem_cons.mp hx with rfl | hmem
      · exact Or.inl (List.mem_cons_self _ _)
      · rcases ih n f hmem with hm | ⟨y, hy, rfl⟩
        · exact Or.inl (List.mem_cons_of_mem _ hm)
        · exact Or.inr ⟨y, List.mem_cons_of_mem _ hy, rfl⟩

/-- The alias-propagation rewrite (a rename) does not affect conformance. -/
theorem slotValidOk_edit_upd (net : Network) (name : String)
    (fp : Fingerprint) (sl : DescriptorKey) :
    slotValidOk net
      (if sl.key.map DescriptorPublicKey.master_fingerprint = some fp
       then { sl with name := name } else sl) = slotValidOk net sl := by
  split
  · exact slotValidOk_congr net _ _ rfl rfl
  · rfl

/-- One step of validity-conformance preservation across update. -/
theorem c8_step (s : DefineDescriptor) (m : Msg) (h : invValid s = true) :
    Option.all invValid (s.update m) = true := by
  cases m with
  | network n =>
    show invValid (set_network { s with error := none } n) = true
    rw [invValid_iff]
    intro sl hsl
    simp only [pool, set_network] at hsl ⊢
    try dsimp only at hsl ⊢
    rcases List.mem_append.mp hsl with hm | hm <;>
      rcases List.mem_map.mp hm with ⟨sl0, hsl0, rfl⟩ <;>
      exact slotValidOk_check_network n sl0
  | thresholdEdited r v =>
    cases r <;> exact h
  | sequenceEdited seq =>
    unfold DefineDescriptor.update
    dsimp only
    split <;> exact h
  | addKey r =>
    rw [invValid_iff] at h
    cases r
    · show invValid _ = true
      rw [invValid_iff]
      intro sl hsl
      simp only [pool] at hsl ⊢
      try dsimp only at hsl ⊢
      rcases List.mem_append.mp hsl with hm | hm
      · rcases List.mem_append.mp hm with hm2 | hm2
        · exact h sl (List.mem_append.mpr (Or.inl hm2))
        · rcases List.mem_cons.mp hm2 with rfl | hmem
          · rfl
          · cases hmem
      · exact h sl (List.mem_append.mpr (Or.inr hm))
    · show invValid _ = true
      rw [invValid_iff]
      intro sl hsl
      simp only [pool] at hsl ⊢
      try dsimp only at hsl ⊢
      rcases List.mem_append.mp hsl with hm | hm
      · exact h sl (List.mem_append.mpr (Or.inl hm))
      · rcases List.mem_append.mp hm with hm2 | hm2
        · exact h sl (List.mem_append.mpr (Or.inr hm2))
        · rcases List.mem_cons.mp hm2 with rfl | hmem
          · rfl
          · cases hmem
  | keyEdited r i name key =>
    rw [invValid_iff] at h
    cases r
    · show invValid (check_for_duplicate _) = true
      apply invValid_check_of
      rw [invValid_iff]
      intro sl hsl
      simp only [pool, edit_alias_for_key_with_same_fingerprint]
        at hsl ⊢
      try dsimp only at hsl ⊢
      rcases List.mem_append.mp hsl with hm | hm
      · rcases mem_modifyAt _ _ _ hm with hm2 | ⟨y, hy, rfl⟩
        · rcases List.mem_map.mp hm2 with ⟨sl0, hsl0, rfl⟩
          try dsimp only
          rw [slotValidOk_edit_upd]
          exact h sl0 (List.mem_append.mpr (Or.inl hsl0))
        · exact slotValidOk_check_network s.network _
      · rcases List.mem_map.mp hm with ⟨sl0, hsl0, rfl⟩
        try dsimp only
        rw [slotValidOk_edit_upd]
        exact h sl0 (List.mem_append.mpr (Or.inr hsl0))
    · show invValid (check_for_duplicate _) = true
      apply invValid_check_of
      rw [invValid_iff]
      intro sl hsl
      simp only [pool, edit_alias_for_key_with_same_fingerprint]
        at hsl ⊢
      try dsimp only at hsl ⊢
      rcases List.mem_append.mp hsl with hm | hm
      · rcases List.mem_map.mp hm with ⟨sl0, hsl0, rfl⟩
        try dsimp only
        rw [slotValidOk_edit_upd]
        exact h sl0 (List.mem_append.mpr (Or.inl hsl0))
      · rcases mem_modifyAt _ _ _ hm with hm2 | ⟨y, hy, rfl⟩
        · rcases List.mem_map.mp hm2 with ⟨sl0, hsl0, rfl⟩
          try dsimp only
          rw [slotValidOk_edit_upd]
          exact h sl0 (List.mem_append.mpr (Or.inr hsl0))
        · exact slotValidOk_check_network s.network _
  | keyDelete r i =>
    rw [invValid_iff] at h
    cases r
    · by_cases hi : i < s.spending_keys.length
      · unfold DefineDescriptor.update
        dsimp only
        simp only [Bool.false_eq_true, Bool.true_eq_false, reduceIte]
        rw [if_pos hi]
        show invValid (check_for_duplicate _) = true
        apply invValid_check_of
        rw [invValid_iff]
        intro sl hsl
        simp only [pool] at hsl ⊢
        try dsimp only at hsl ⊢
        rcases List.mem_append.mp hsl with hm | hm
        · exact h sl (List.mem_append.mpr
            (Or.inl (List.mem_of_mem_eraseIdx hm)))
        · exact h sl (List.mem_append.mpr (Or.inr hm))
      · unfold DefineDescriptor.update
        dsimp only
        simp only [Bool.false_eq_true, Bool.true_eq_false, reduceIte]
        rw [if_neg hi]
        rfl
    · by_cases hi : i < s.recovery_keys.length
      · unfold DefineDescriptor.update
        dsimp only
        simp only [Bool.false_eq_true, Bool.true_eq_false, reduceIte]
        rw [if_pos hi]
        show invValid (check_for_duplicate _) = true
        apply invValid_check_of
        rw [invValid_iff]
        intro sl hsl
        simp only [pool] at hsl ⊢
        try dsimp only at hsl ⊢
        rcases List.mem_append.mp hsl with hm | hm
        · exact h sl (List.mem_append.mpr (Or.inl hm))
        · exact h sl (List.mem_append.mpr
            (Or.inr (List.mem_of_mem_eraseIdx hm)))
      · unfold DefineDescriptor.update
        dsimp only
        simp only [Bool.false_eq_true, Bool.true_eq_false, reduceIte]
        rw [if_neg hi]
        rfl

/-- C8: validity conformance — the valid flag of every populated slot is
true iff the embedded network tag of its key matches the active network: a
mainnet tag matches the Bitcoin network and the shared testnet tag matches
every other network (check_key_network) — holds in the initial state and is
preserved by every registry update, in particular by setting a key and by
changing the active network. -/
theorem c8_network_validity :
    invValid initialState = true ∧
    ∀ (s : DefineDescriptor) (m : Msg), invValid s = true →
      Option.all invValid (s.update m) = true := by
  constructor
  · decide
  · intro s m h
    exact c8_step s m h

/-- C8 witness: the initial state conforms, and still conforms after
switching the active network to signet. -/
theorem c8_witness :
    invValid initialState = true ∧
    Option.all invValid
      (initialState.update (Msg.network Network.signet)) = true :=
  ⟨c8_network_validity.1,
   c8_network_validity.2 initialState (Msg.network Network.signet)
     (by decide)⟩

/-- The derived order is irreflexive. -/
theorem cnGt_self (c : ChildNumber) : ChildNumber.cnGt c c = false := by
  cases c <;> simp [ChildNumber.cnGt]

/-- The derived order is transitive. -/
theorem cnGt_trans {a b c : ChildNumber}
    (h1 : ChildNumber.cnGt a b = true) (h2 : ChildNumber.cnGt b c = true) :
    ChildNumber.cnGt a c = true := by
  cases a <;> cases b <;> cases c <;>
    simp_all [ChildNumber.cnGt] <;> omega

/-- The derived order is total. -/
theorem cnGt_total (a b : ChildNumber) :
    ChildNumber.cnGt a b = true ∨ a = b ∨ ChildNumber.cnGt b a = true := by
  cases a <;> cases b <;> simp [ChildNumber.cnGt] <;> omega

/-- Looking up the fingerprint just set returns the set value. -/
theorem lookupFp_setFp_self (m : List (Fingerprint × ChildNumber))
    (fp : Fingerprint) (c : ChildNumber) :
    lookupFp (setFp m fp c) fp = some c := by
  induction m with
  | nil => simp [setFp, lookupFp]
  | cons e rest ih =>
    obtain ⟨f, c0⟩ := e
    unfold setFp
    by_cases hf : f = fp
    · rw [if_pos hf]
      unfold lookupFp
      rw [if_pos rfl]
    · rw [if_neg hf]
      unfold lookupFp
      rw [if_neg hf]
      exact ih

/-- Setting one fingerprint leaves other lookups unchanged. -/
theorem lookupFp_setFp_ne (m : List (Fingerprint × ChildNumber))
    (f0 fp : Fingerprint) (c : ChildNumber) (hne : f0 ≠ fp) :
    lookupFp (setFp m f0 c) fp = lookupFp m fp := by
  induction m with
  | nil => simp [setFp, lookupFp, hne]
  | cons e rest ih =>
    obtain ⟨f, c0⟩ := e
    unfold setFp
    by_cases hf : f = f0
    · rw [if_pos hf]
      unfold lookupFp
      rw [if_neg hne, if_neg (hf ▸ hne)]
    · rw [if_neg hf]
      unfold lookupFp
      by_cases hffp : f = fp
      · rw [if_pos hffp, if_pos hffp]
      · rw [if_neg hffp, if_neg hffp]
        exact ih

/-- The lookup after one mapping step, via the running maximum. -/
theorem lookupFp_mappingStep (m : List (Fingerprint × ChildNumber))
    (sl : DescriptorKey) (fp : Fingerprint) :
    lookupFp (mappingStep m sl) fp =
      (match obsOf fp sl with
       | some c => accStep (lookupFp m fp) c
       | none => lookupFp m fp) := by
  unfold mappingStep obsOf
  cases ho : slotObserved sl with
  | none => rfl
  | some fc =>
    obtain ⟨f, c⟩ := fc
    dsimp only
    by_cases hf : f = fp
    · subst hf
      rw [if_pos rfl]
      cases hl : lookupFp m f with
      | none =>
        dsimp only
        unfold accStep
        dsimp only
        rw [lookupFp_setFp_self]
      | some prev =>
        dsimp only
        unfold accStep
        dsimp only
        split
        · rw [lookupFp_setFp_self]
        · exact hl
    · rw [if_neg hf]
      cases hl : lookupFp m f with
      | none =>
        dsimp only
        rw [lookupFp_setFp_ne m f fp _ hf]
      | some prev =>
        dsimp only
        split
        · rw [lookupFp_setFp_ne m f fp _ hf]
        · rfl

/-- The lookup after folding the mapping step over a slot list equals the
running maximum over the observed indices. -/
theorem lookupFp_mapFold (l : List DescriptorKey)
    (m : List (Fingerprint × ChildNumber)) (fp : Fingerprint) :
    lookupFp (l.foldl mappingStep m) fp =
      (observedFor l fp).foldl accStep (lookupFp m fp) := by
  induction l generalizing m with
  | nil => rfl
  | cons x xs ih =>
    rw [List.foldl_cons, ih]
    unfold observedFor
    rw [List.filterMap_cons]
    cases ho : obsOf fp x with
    | none =>
      dsimp only
      rw [lookupFp_mappingStep, ho]
    | some c =>
      dsimp only
      rw [List.foldl_cons, lookupFp_mappingStep, ho]

/-- The mapping lookup for a fingerprint is the running maximum over all
indices observed for it in the combined pool. -/
theorem lookupFp_mapping (s : DefineDescriptor) (fp : Fingerprint) :
    lookupFp (fingerprint_account_index_mappping s) fp =
      (observedFor (pool s) fp).foldl accStep none := by
  unfold fingerprint_account_index_mappping pool observedFor
  rw [lookupFp_mapFold, lookupFp_mapFold, List.filterMap_append,
    List.foldl_append]
  rfl

/-- The running maximum over a list, when defined, is an element of the
list or the seed, no list element exceeds it, and the seed does not exceed
it. -/
theorem foldl_accStep_spec (l : List ChildNumber) :
    ∀ (a : Option ChildNumber) (c : ChildNumber),
      l.foldl accStep a = some c →
      (a = some c ∨ c ∈ l) ∧
      (∀ x ∈ l, ChildNumber.cnGt x c = false) ∧
      (∀ p, a = some p → ChildNumber.cnGt p c = false) := by
  induction l with
  | nil =>
    intro a c h
    refine ⟨Or.inl h, ?_, ?_⟩
    · intro x hx
      cases hx
    · intro p hp
      rw [hp] at h
      rw [Option.some.inj h]
      exact cnGt_self c
  | cons y ys ih =>
    intro a c h
    rw [List.foldl_cons] at h
    obtain ⟨h1, h2, h3⟩ := ih (accStep a y) c h
    have hy : ChildNumber.cnGt y c = false := by
      cases ha : a with
      | none =>
        apply h3
        rw [ha]
        rfl
      | some p =>
        by_cases hyp : ChildNumber.cnGt y p = true
        · apply h3
          rw [ha]
          unfold accStep
          dsimp only
          rw [if_pos hyp]
        · have hpc : ChildNumber.cnGt p c = false := by
            apply h3
            rw [ha]
            unfold accStep
            dsimp only
            rw [if_neg hyp]
          cases hyc : ChildNumber.cnGt y c with
          | false => rfl
          | true =>
            rcases cnGt_total y p with hgt | heq | hlt
            · exact absurd hgt hyp
            · rw [heq] at hyc
              rw [hyc] at hpc
              cases hpc
            · have := cnGt_trans hlt hyc
              rw [this] at hpc
              cases hpc
    refine ⟨?_, ?_, ?_⟩
    · cases ha : a with
      | none =>
        rcases h1 with h1 | h1
        · rw [ha] at h1
          right
          rw [show y = c from Option.some.inj h1]
          exact List.mem_cons_self _ _
        · exact Or.inr (List.mem_cons_of_mem _ h1)
      | some p =>
        rcases h1 with h1 | h1
        · rw [ha] at h1
          unfold accStep at h1
          dsimp only at h1
          by_cases hyp : ChildNumber.cnGt y p = true
          · rw [if_pos hyp] at h1
            right
            rw [show y = c from Option.some.inj h1]
            exact List.mem_cons_self _ _
          · rw [if_neg hyp] at h1
            left
            exact h1
        · exact Or.inr (List.mem_cons_of_mem _ h1)
    · intro x hx
      rcases List.mem_cons.mp hx with rfl | hmem
      · exact hy
      · exact h2 x hmem
    · intro p hp
      by_cases hyp : ChildNumber.cnGt y p = true
      · have hyc2 : ChildNumber.cnGt y c = false := hy
        cases hpc : ChildNumber.cnGt p c with
        | false => rfl
        | true =>
          have := cnGt_trans hyp hpc
          rw [this] at hyc2
          cases hyc2
      · apply h3
        rw [hp]
        unfold accStep
        dsimp only
        rw [if_neg hyp]

/-- The running maximum of a nonempty observation list is defined. -/
theorem foldl_accStep_some (l : List ChildNumber) :
    ∀ (a : Option ChildNumber), l ≠ [] ∨ a.isSome = true →
      (l.foldl accStep a).isSome = true := by
  induction l with
  | nil =>
    intro a h
    rcases h with h | h
    · exact absurd rfl h
    · exact h
  | cons y ys ih =>
    intro a _
    rw [List.foldl_cons]
    apply ih
    cases a with
    | none => exact Or.inr rfl
    | some p =>
      right
      unfold accStep
      dsimp only
      split <;> rfl

/-- A freshly imported slot observes exactly its allocated index: the
generated path has four elements, starts with hardened 48 and carries the
account index at position 2, on every network. -/
theorem slotObserved_mkImportedSlot (name : String) (fp : Fingerprint)
    (net : Network) (idx : ChildNumber) (xk : Xpub) :
    slotObserved (mkImportedSlot name fp net idx xk) = some (fp, idx) := by
  unfold mkImportedSlot generate_derivation_path
  by_cases hnet : net = Network.bitcoin
  · rw [if_pos hnet]
    rfl
  · rw [if_neg hnet]
    rfl

/-- The observation of a freshly imported slot, keyed by its fingerprint. -/
theorem obsOf_mkImportedSlot (name : String) (fp : Fingerprint)
    (net : Network) (idx : ChildNumber) (xk : Xpub) :
    obsOf fp (mkImportedSlot name fp net idx xk) = some idx := by
  unfold obsOf
  rw [slotObserved_mkImportedSlot]
  dsimp only
  rw [if_pos rfl]

/-- Observations distribute over list append. -/
theorem observedFor_append (l1 l2 : List DescriptorKey) (fp : Fingerprint) :
    observedFor (l1 ++ l2) fp = observedFor l1 fp ++ observedFor l2 fp := by
  unfold observedFor
  rw [List.filterMap_append]

/-- Observations of a list headed by a freshly imported slot. -/
theorem observedFor_cons_import (n : String) (fp : Fingerprint)
    (net : Network) (idx : ChildNumber) (xk : Xpub)
    (rest : List DescriptorKey) :
    observedFor (mkImportedSlot n fp net idx xk :: rest) fp =
      idx :: observedFor rest fp := by
  unfold observedFor
  rw [List.filterMap_cons, obsOf_mkImportedSlot]

/-- C3 (amended): the allocation returns hardened index 0 when no populated
slot of either branch contributes an account index for the fingerprint;
otherwise it returns the increment of the maximum observed index, which
preserves the hardened/normal variant of that maximum (hardened max + 1
when the maximum observed index is hardened); consequently allocating and
importing twice in sequence for a fresh fingerprint yields hardened 0, then
hardened 1, then hardened 2. -/
theorem c3_account_index_allocation :
    (∀ (s : DefineDescriptor) (fp : Fingerprint),
        observedFor (pool s) fp = [] →
        next_account_index s fp = some (ChildNumber.hardened 0)) ∧
    (∀ (s : DefineDescriptor) (fp : Fingerprint) (idx : ChildNumber),
        lookupFp (fingerprint_account_index_mappping s) fp = some idx →
        idx ∈ observedFor (pool s) fp ∧
        (∀ c ∈ observedFor (pool s) fp, ChildNumber.cnGt c idx = false) ∧
        next_account_index s fp = idx.increment) ∧
    (∀ (s : DefineDescriptor) (fp : Fingerprint) (net : Network)
        (n1 n2 : String) (x1 x2 : Xpub),
        observedFor (pool s) fp = [] →
        next_account_index s fp = some (ChildNumber.hardened 0) ∧
        next_account_index
          { s with spending_keys := s.spending_keys ++
              [mkImportedSlot n1 fp net (ChildNumber.hardened 0) x1] } fp =
          some (ChildNumber.hardened 1) ∧
        next_account_index
          { s with spending_keys := s.spending_keys ++
              [mkImportedSlot n1 fp net (ChildNumber.hardened 0) x1,
               mkImportedSlot n2 fp net (ChildNumber.hardened 1) x2] } fp =
          some (ChildNumber.hardened 2)) := by
  have base : ∀ (s : DefineDescriptor) (fp : Fingerprint),
      observedFor (pool s) fp = [] →
      next_account_index s fp = some (ChildNumber.hardened 0) := by
    intro s fp h
    unfold next_account_index
    rw [lookupFp_mapping, h]
    rfl
  refine ⟨base, ?_, ?_⟩
  · intro s fp idx h
    have hfold : (observedFor (pool s) fp).foldl accStep none = some idx := by
      rw [← lookupFp_mapping]
      exact h
    obtain ⟨h1, h2, _⟩ := foldl_accStep_spec _ none idx hfold
    refine ⟨?_, h2, ?_⟩
    · rcases h1 with h1 | h1
      · cases h1
      · exact h1
    · unfold next_account_index
      rw [h]
  · intro s fp net n1 n2 x1 x2 h
    have hsplit : observedFor s.spending_keys fp = [] ∧
        observedFor s.recovery_keys fp = [] := by
      rw [← List.append_eq_nil]
      rw [← observedFor_append]
      exact h
    have hobs1 : observedFor (pool
        { s with spending_keys := s.spending_keys ++
            [mkImportedSlot n1 fp net (ChildNumber.hardened 0) x1] }) fp =
        [ChildNumber.hardened 0] := by
      unfold pool
      dsimp only
      rw [observedFor_append, observedFor_append, hsplit.1, hsplit.2,
        observedFor_cons_import]
      rfl
    have hobs2 : observedFor (pool
        { s with spending_keys := s.spending_keys ++
            [mkImportedSlot n1 fp net (ChildNumber.hardened 0) x1,
             mkImportedSlot n2 fp net (ChildNumber.hardened 1) x2] }) fp =
        [ChildNumber.hardened 0, ChildNumber.hardened 1] := by
      unfold pool
      dsimp only
      rw [observedFor_append, observedFor_append, hsplit.1, hsplit.2,
        observedFor_cons_import, observedFor_cons_import]
      rfl
    refine ⟨base s fp h, ?_, ?_⟩
    · unfold next_account_index
      rw [lookupFp_mapping, hobs1]
      rfl
    · unfold next_account_index
      rw [lookupFp_mapping, hobs2]
      rfl

/-- C3 witness: on the initial state (no populated slots) the allocation
for fingerprint 7 returns hardened index 0. -/
theorem c3_witness :
    next_account_index initialState 7 = some (ChildNumber.hardened 0) :=
  c3_account_index_allocation.1 initialState 7 (by decide)

/-- A slot whose origin path carries an unhardened account index at
position 2 below hardened 48. -/
def c3slot : DescriptorKey :=
  { name := "dave", valid := true,
    key := some (.xpub
      { origin := some (5, [.hardened 48, .hardened 1, .normal 5,
                            .hardened 2]),
        xkey := xkA, derivation_path := [], wildcard := .none }),
    duplicate_key := false, duplicate_name := false }

/-- State for the C3 counterexample: the only populated slot observes the
unhardened account index 5 for fingerprint 5. -/
def c3s : DefineDescriptor :=
  { network := .bitcoin, network_valid := true,
    spending_keys := [c3slot], spending_threshold := 1,
    recovery_keys := [DescriptorKey.default], recovery_threshold := 1,
    sequence := { value := "", valid := false }, error := none }

/-- C3 counterexample to the claim as stated: with an unhardened observed
account index the allocator returns normal 6, not a hardened index — the
increment preserves the variant of the stored maximum. -/
theorem c3_counterexample :
    next_account_index c3s 5 = some (ChildNumber.normal 6) ∧
    ChildNumber.isHardened (ChildNumber.normal 6) = false := by decide
